import Mathlib

/-!
Shallow embedding of `authlite.go` (github.com/d2718/authlite), a small
credential and session-key registry backed by CSV files.

Modelling choices:
* Go maps (`users : map[string][]byte`, `keys : map[string]key`) become
  association lists `List (String × _)` with at most one binding per key
  (insertion erases the previous binding), read through `alookup`.
* Wall-clock instants are epoch seconds as `Nat`; the signed 64-bit value
  produced inside `LoadKeys` by `time.Unix(int64(parseUint(..)), 0)` is an
  `Int` (`unixSec`).
* File I/O is abstracted away: a Flush returns the list of CSV records it
  writes, a Load consumes such a list.  The bcrypt capability is a function
  parameter (`hash` for `GenerateFromPassword`, `cmp` for
  `CompareHashAndPassword`); key generation is a parameter `kstr`.
* The mutex-protected global state becomes explicit state records
  `UserState` / `KeyState` threaded through each operation.
-/

namespace Authlite

/-- The error values of authlite: `ErrUserExists`, `ErrNotAUser`,
`ErrBadPassword`, `ErrBadKey`, plus the "unreadable format" error the two
loaders build with `fmt.Errorf`. -/
inductive AuthErr where
  | userExists
  | notAUser
  | badPassword
  | badKey
  | formatError
deriving DecidableEq, Repr

/-- The `key` struct: `uname string; until time.Time` (field renamed `until_`, since `until` is a Lean keyword) (epoch seconds). -/
structure key where
  uname : String
  until_ : Nat
deriving DecidableEq, Repr

/-- Association-list lookup, modelling Go map indexing. -/
def alookup {α : Type} : List (String × α) → String → Option α
  | [], _ => none
  | (k, v) :: rest, s => if k = s then some v else alookup rest s

/-- Modelled map deletion: remove every binding of `k` (there is at most
one in any list built by `insertK`). -/
def eraseK {α : Type} (k : String) (m : List (String × α)) : List (String × α) :=
  m.filter fun p => p.1 ≠ k

/-- Modelled map insertion: overwrite any previous binding of `k`. -/
def insertK {α : Type} (k : String) (v : α) (m : List (String × α)) : List (String × α) :=
  (k, v) :: eraseK k m

/-- The user-store state: the global `users` map and `udirty` flag. -/
structure UserState where
  users : List (String × String)
  udirty : Bool
deriving DecidableEq, Repr

/-- The key-store state: the global `keys` map and `kdirty` flag. -/
structure KeyState where
  keys : List (String × key)
  kdirty : Bool
deriving DecidableEq, Repr

/-! ### Model of `strconv.ParseUint(s, 10, 64)` and of `fmt.Sprintf` -/

/-- Numeric value of a decimal digit character. -/
def charVal (c : Char) : Nat := c.toNat - 48

/-- Left-to-right decimal value of a character list. -/
def valChars (cs : List Char) : Nat := cs.foldl (fun a c => a * 10 + charVal c) 0

/-- Go's base-10 `ParseUint` accepts exactly a nonempty string of ASCII
digits. -/
def isDigitStr (s : String) : Bool := !s.data.isEmpty && s.data.all Char.isDigit

/-- Model of `strconv.ParseUint(s, 10, 64)`, keeping only the returned
value (authlite discards the error): a syntax error returns `0`, a range
error returns the maximum `uint64`. -/
def parseUint64 (s : String) : Nat :=
  if isDigitStr s then
    if valChars s.data < 2 ^ 64 then valChars s.data else 2 ^ 64 - 1
  else 0

/-- Conversion `uint64 → int64` (two's complement reinterpretation). -/
def toInt64 (n : Nat) : Int :=
  if n < 2 ^ 63 then (n : Int) else (n : Int) - 2 ^ 64

/-- The epoch-second instant `time.Unix(int64(t_num), 0)` computed by
`LoadKeys` from the second CSV field. -/
def unixSec (s : String) : Int := toInt64 (parseUint64 s)

/-- Digit characters of `n`, most significant first, by repeated division
(fuel-indexed so it reduces in the kernel). -/
def decAux : Nat → Nat → List Char → List Char
  | 0, _, acc => acc
  | fuel + 1, n, acc =>
    if n < 10 then Nat.digitChar n :: acc
    else decAux fuel (n / 10) (Nat.digitChar (n % 10) :: acc)

/-- Model of `fmt.Sprintf` with the decimal verb on a nonnegative value. -/
def natDecimal (n : Nat) : String := String.mk (decAux (n + 1) n [])

/-! ### The store operations, translated from `authlite.go` -/

/-- The record loop of `LoadUsers`: starting from a fresh map, a row with
fewer than 2 fields aborts with an error (`false`) leaving the partially
built map; otherwise `users[r[0]] = r[1]`. -/
def luLoop : List (List String) → List (String × String) → Bool × List (String × String)
  | [], m => (true, m)
  | (f0 :: f1 :: _) :: rest, m => luLoop rest (insertK f0 f1 m)
  | _ :: _, m => (false, m)

/-- `LoadUsers()`, with the CSV rows already read from the file.  The code
does `users = make(...)` before the loop, so on a format error the state
keeps the partially parsed map while `udirty` is left as it was; on
success `udirty` is cleared. -/
def LoadUsers (recs : List (List String)) (s : UserState) : Option AuthErr × UserState :=
  match luLoop recs [] with
  | (true, m) => (none, ⟨m, false⟩)
  | (false, m) => (some .formatError, ⟨m, s.udirty⟩)

/-- The record loop of `LoadKeys`: a row with fewer than 3 fields aborts;
otherwise `t := time.Unix(int64(ParseUint(r[1])), 0)` and the row is kept
only when `now.Before(t)`. -/
def lkLoop (now : Nat) : List (List String) → List (String × key) → Bool × List (String × key)
  | [], m => (true, m)
  | (f0 :: f1 :: f2 :: _) :: rest, m =>
    lkLoop now rest
      (if (now : Int) < unixSec f1 then insertK f2 ⟨f0, (unixSec f1).toNat⟩ m else m)
  | _ :: _, m => (false, m)

/-- `LoadKeys()`, with the CSV rows already read and `now = time.Now()`.
Like `LoadUsers`, the map is replaced before the loop runs. -/
def LoadKeys (recs : List (List String)) (now : Nat) (ks : KeyState) : Option AuthErr × KeyState :=
  match lkLoop now recs [] with
  | (true, m) => (none, ⟨m, false⟩)
  | (false, m) => (some .formatError, ⟨m, ks.kdirty⟩)

/-- `FlushUsers()`: returns the CSV rows written (`{uname, string(phash)}`
for every entry) and clears `udirty`. -/
def FlushUsers (s : UserState) : List (List String) × UserState :=
  (s.users.map fun p => [p.1, p.2], ⟨s.users, false⟩)

/-- `FlushKeys()`: writes `{v.uname, Sprintf(v.until.Unix()), k}` for every
entry with `v.until.After(now)` and clears `kdirty`. -/
def FlushKeys (now : Nat) (ks : KeyState) : List (List String) × KeyState :=
  ((ks.keys.filter fun p => now < p.2.until_).map
      fun p => [p.2.uname, natDecimal p.2.until_, p.1],
   ⟨ks.keys, false⟩)

/-- `AddUser(uname, pwd)`; `hash` stands for
`bcrypt.GenerateFromPassword(·, hash_cost)`. -/
def AddUser (hash : String → String) (s : UserState) (uname pwd : String) :
    Option AuthErr × UserState :=
  match alookup s.users uname with
  | some _ => (some .userExists, s)
  | none => (none, ⟨insertK uname (hash pwd) s.users, true⟩)

/-- `DeleteUser(uname)`. -/
def DeleteUser (s : UserState) (uname : String) : Option AuthErr × UserState :=
  match alookup s.users uname with
  | some _ => (none, ⟨eraseK uname s.users, true⟩)
  | none => (some .notAUser, s)

/-- Outcome of `bcrypt.CompareHashAndPassword`: `nil`, the mismatch error,
or any other (engine) error.  The code only tests `err == nil`. -/
inductive CmpRes where
  | ok
  | mismatch
  | engineErr
deriving DecidableEq, Repr

/-- `CheckPassword(uname, pwd)`; `cmp` stands for
`bcrypt.CompareHashAndPassword`.  The returned state is unchanged: the
function only takes the read lock. -/
def CheckPassword (cmp : String → String → CmpRes) (s : UserState) (uname pwd : String) :
    (Bool × Option AuthErr) × UserState :=
  (match alookup s.users uname with
   | none => (false, some .notAUser)
   | some hsh =>
     match cmp hsh pwd with
     | .ok => (true, none)
     | _ => (false, some .badPassword),
   s)

/-- `CheckKey(uname, keystr)` at instant `now`; `k.until.After(now)` is
`now < k.until_`.  The returned state is unchanged. -/
def CheckKey (now : Nat) (ks : KeyState) (uname keystr : String) :
    (Bool × Option AuthErr) × KeyState :=
  (match alookup ks.keys keystr with
   | some k =>
     if uname = k.uname then
       if now < k.until_ then (true, none) else (false, some .badKey)
     else (false, some .badKey)
   | none => (false, some .badKey),
   ks)

/-- `CheckPasswordAndIssueKey(uname, pwd)`; `kstr` stands for the string
returned by `generate_key()`. -/
def CheckPasswordAndIssueKey (cmp : String → String → CmpRes) (kstr : String)
    (now lifetime : Nat) (us : UserState) (ks : KeyState) (uname pwd : String) :
    (String × Option AuthErr) × KeyState :=
  let r := CheckPassword cmp us uname pwd
  if r.1.1 = false then (("", r.1.2), ks)
  else ((kstr, none), ⟨insertK kstr ⟨uname, now + lifetime⟩ ks.keys, true⟩)

/-- `CheckAndRefreshKey(uname, keystr)`.  On success the code re-reads
`k := keys[keystr]` (Go map indexing yields the zero value if absent) and
overwrites `k.until` with `now + key_lifetime`. -/
def CheckAndRefreshKey (now lifetime : Nat) (ks : KeyState) (uname keystr : String) :
    (Bool × Option AuthErr) × KeyState :=
  let r := CheckKey now ks uname keystr
  if r.1.1 = false then ((false, r.1.2), ks)
  else
    let k := (alookup ks.keys keystr).getD ⟨"", 0⟩
    ((true, none), ⟨insertK keystr ⟨k.uname, now + lifetime⟩ ks.keys, true⟩)

/-- `CullOldKeys()`: collect the keys with `now.After(kval.until)`, delete
them, set `kdirty` only when at least one was collected. -/
def CullOldKeys (now : Nat) (ks : KeyState) : KeyState :=
  let old := (ks.keys.filter fun p => p.2.until_ < now).map Prod.fst
  ⟨old.foldl (fun m kstr => eraseK kstr m) ks.keys,
   if old.length > 0 then true else ks.kdirty⟩

/-! ### Association-list lemmas -/

/-- Row shape accepted by the `LoadUsers` loop: at least two fields. -/
def rowPairU : List String → Option (String × String)
  | f0 :: f1 :: _ => some (f0, f1)
  | _ => none

/-- Row shape accepted and kept by the `LoadKeys` loop: at least three
fields and an expiry still in the future. -/
def rowPairK (now : Nat) : List String → Option (String × key)
  | f0 :: f1 :: f2 :: _ =>
    if (now : Int) < unixSec f1 then some (f2, ⟨f0, (unixSec f1).toNat⟩) else none
  | _ => none

/-- Folding `insertK` over a list of bindings, left to right. -/
def insertAll {α : Type} (l : List (String × α)) (m : List (String × α)) :
    List (String × α) :=
  l.foldl (fun acc p => insertK p.1 p.2 acc) m

/-- Lookup that prefers the LAST binding of a key. -/
def lastLookup {α : Type} (l : List (String × α)) (s : String) : Option α :=
  alookup l.reverse s

/-- Reference decimal digit list of `n`, most significant first. -/
def repChars (n : Nat) : List Char :=
  if _h : n < 10 then [Nat.digitChar n]
  else repChars (n / 10) ++ [Nat.digitChar (n % 10)]
decreasing_by exact Nat.div_lt_self (by omega) (by omega)

/-- The digest of the LAST well-formed row of `recs` whose first field is
`name` (later rows take precedence), used to state what a user-file load
produces on duplicate names. -/
def lastDigest : List (List String) → String → Option String
  | [], _ => none
  | r :: rest, name =>
    match lastDigest rest name with
    | some d => some d
    | none =>
      match r with
      | f0 :: f1 :: _ => if f0 = name then some f1 else none
      | _ => none

theorem alookup_eq_none {α : Type} (l : List (String × α)) (s : String)
    (h : s ∉ l.map Prod.fst) : alookup l s = none := by
  induction l with
  | nil => rfl
  | cons p rest ih =>
    simp only [List.map_cons, List.mem_cons, not_or] at h
    simp only [alookup]
    rw [if_neg (fun hc => h.1 hc.symm)]
    exact ih h.2

theorem alookup_eraseK {α : Type} (k : String) (m : List (String × α)) (s : String)
    (h : s ≠ k) : alookup (eraseK k m) s = alookup m s := by
  induction m with
  | nil => rfl
  | cons p rest ih =>
    by_cases hpk : p.1 = k
    · have hps : ¬(p.1 = s) := fun hc => h (hc.symm.trans hpk)
      simp only [eraseK, List.filter_cons] at ih ⊢
      simp only [alookup, hps, if_false]
      simpa [hpk] using ih
    · simp only [eraseK, List.filter_cons] at ih ⊢
      by_cases hps : p.1 = s
      · simp [alookup, hpk, hps, h]
      · simpa [alookup, hpk, hps] using ih

theorem alookup_insertK {α : Type} (k : String) (v : α) (m : List (String × α))
    (s : String) : alookup (insertK k v m) s = if k = s then some v else alookup m s := by
  simp only [insertK, alookup]
  by_cases hks : k = s
  · simp [hks]
  · simp only [hks, if_false]
    exact alookup_eraseK k m s (fun hc => hks hc.symm)

theorem alookup_append {α : Type} (a b : List (String × α)) (s : String) :
    alookup (a ++ b) s =
      match alookup a s with
      | some v => some v
      | none => alookup b s := by
  induction a with
  | nil => rfl
  | cons p rest ih =>
    simp only [List.cons_append, alookup]
    by_cases hps : p.1 = s
    · simp [hps]
    · simp only [hps, if_false]
      exact ih

theorem lastLookup_cons {α : Type} (p : String × α) (l : List (String × α)) (s : String) :
    lastLookup (p :: l) s =
      match lastLookup l s with
      | some v => some v
      | none => if p.1 = s then some p.2 else none := by
  simp only [lastLookup, List.reverse_cons, alookup_append]
  rcases alookup l.reverse s with _ | v <;> simp [alookup]

theorem alookup_insertAll {α : Type} (l m : List (String × α)) (s : String) :
    alookup (insertAll l m) s =
      match lastLookup l s with
      | some v => some v
      | none => alookup m s := by
  induction l generalizing m with
  | nil => rfl
  | cons p rest ih =>
    have hstep : insertAll (p :: rest) m = insertAll rest (insertK p.1 p.2 m) := rfl
    rw [hstep, ih, lastLookup_cons, alookup_insertK]
    rcases lastLookup rest s with _ | v
    · by_cases hps : p.1 = s <;> simp [hps]
    · simp

theorem lastLookup_eq_alookup {α : Type} (l : List (String × α))
    (h : (l.map Prod.fst).Nodup) (s : String) : lastLookup l s = alookup l s := by
  induction l with
  | nil => rfl
  | cons p rest ih =>
    simp only [List.map_cons, List.nodup_cons] at h
    rw [lastLookup_cons, ih h.2]
    by_cases hps : p.1 = s
    · rw [alookup_eq_none rest s (hps ▸ h.1)]
      simp [alookup, hps]
    · simp only [alookup, hps, if_false]
      rcases alookup rest s with _ | v <;> simp

theorem alookup_filter {α : Type} (p : String × α → Bool) (l : List (String × α))
    (h : (l.map Prod.fst).Nodup) (s : String) :
    alookup (l.filter p) s =
      match alookup l s with
      | some v => if p (s, v) then some v else none
      | none => none := by
  induction l with
  | nil => rfl
  | cons q rest ih =>
    simp only [List.map_cons, List.nodup_cons] at h
    have hsub : (rest.filter p).map Prod.fst ⊆ rest.map Prod.fst :=
      List.map_subset Prod.fst (List.filter_sublist _).subset
    have hq : q = (q.1, q.2) := rfl
    by_cases hqs : q.1 = s
    · have hnone : alookup (rest.filter p) s = none :=
        alookup_eq_none _ s (fun hc => h.1 (hqs ▸ hsub hc))
      cases hp : p q with
      | true =>
        simp only [List.filter_cons, hp, if_true, alookup, hqs, if_true]
        have : p (s, q.2) = true := by rw [← hqs]; rw [← hq]; exact hp
        simp [this]
      | false =>
        simp only [List.filter_cons, hp, alookup, hqs]
        have : p (s, q.2) = false := by rw [← hqs]; rw [← hq]; exact hp
        simp [this, hnone]
    · cases hp : p q with
      | true =>
        simp only [List.filter_cons, hp, if_true, alookup, hqs, if_false]
        exact ih h.2
      | false =>
        simp only [List.filter_cons, hp, alookup, hqs]
        simpa using ih h.2

/-! ### Characterizations of the load loops and of the cull sweep -/

theorem luLoop_wf (recs : List (List String)) (h : ∀ r ∈ recs, 2 ≤ r.length)
    (m : List (String × String)) :
    luLoop recs m = (true, insertAll (recs.filterMap rowPairU) m) := by
  induction recs generalizing m with
  | nil => rfl
  | cons r rest ih =>
    rcases r with _ | ⟨f0, _ | ⟨f1, tl⟩⟩
    · exact absurd (h _ (List.mem_cons_self _ _)) (by simp)
    · exact absurd (h _ (List.mem_cons_self _ _)) (by simp)
    · simp only [luLoop, List.filterMap_cons, rowPairU]
      exact ih (fun q hq => h q (List.mem_cons_of_mem _ hq)) (insertK f0 f1 m)

theorem lkLoop_wf (now : Nat) (recs : List (List String)) (h : ∀ r ∈ recs, 3 ≤ r.length)
    (m : List (String × key)) :
    lkLoop now recs m = (true, insertAll (recs.filterMap (rowPairK now)) m) := by
  induction recs generalizing m with
  | nil => rfl
  | cons r rest ih =>
    rcases r with _ | ⟨f0, _ | ⟨f1, _ | ⟨f2, tl⟩⟩⟩
    · exact absurd (h _ (List.mem_cons_self _ _)) (by simp)
    · exact absurd (h _ (List.mem_cons_self _ _)) (by simp)
    · exact absurd (h _ (List.mem_cons_self _ _)) (by simp)
    · have ih' := fun m => ih (fun q hq => h q (List.mem_cons_of_mem _ hq)) m
      by_cases hc : (now : Int) < unixSec f1
      · simp only [lkLoop, List.filterMap_cons, rowPairK, hc, if_true]
        exact ih' _
      · simp only [lkLoop, List.filterMap_cons, rowPairK, hc, if_false]
        exact ih' m

theorem luLoop_stop (good : List (List String)) (bad : List String)
    (rest : List (List String)) (m : List (String × String))
    (hg : ∀ r ∈ good, 2 ≤ r.length) (hb : bad.length < 2) :
    luLoop (good ++ bad :: rest) m = (false, insertAll (good.filterMap rowPairU) m) := by
  induction good generalizing m with
  | nil =>
    match bad, hb with
    | [], _ => rfl
    | [x], _ => rfl
  | cons r grest ih =>
    rcases r with _ | ⟨f0, _ | ⟨f1, tl⟩⟩
    · exact absurd (hg _ (List.mem_cons_self _ _)) (by simp)
    · exact absurd (hg _ (List.mem_cons_self _ _)) (by simp)
    · simp only [List.cons_append, luLoop, List.filterMap_cons, rowPairU]
      exact ih (insertK f0 f1 m) (fun q hq => hg q (List.mem_cons_of_mem _ hq))

theorem lkLoop_stop (now : Nat) (good : List (List String)) (bad : List String)
    (rest : List (List String)) (m : List (String × key))
    (hg : ∀ r ∈ good, 3 ≤ r.length) (hb : bad.length < 3) :
    lkLoop now (good ++ bad :: rest) m =
      (false, insertAll (good.filterMap (rowPairK now)) m) := by
  induction good generalizing m with
  | nil =>
    match bad, hb with
    | [], _ => rfl
    | [x], _ => rfl
    | [x, y], _ => rfl
  | cons r grest ih =>
    rcases r with _ | ⟨f0, _ | ⟨f1, _ | ⟨f2, tl⟩⟩⟩
    · exact absurd (hg _ (List.mem_cons_self _ _)) (by simp)
    · exact absurd (hg _ (List.mem_cons_self _ _)) (by simp)
    · exact absurd (hg _ (List.mem_cons_self _ _)) (by simp)
    · have ih' := fun m => ih m (fun q hq => hg q (List.mem_cons_of_mem _ hq))
      by_cases hc : (now : Int) < unixSec f1
      · simp only [List.cons_append, lkLoop, List.filterMap_cons, rowPairK, hc, if_true]
        exact ih' _
      · simp only [List.cons_append, lkLoop, List.filterMap_cons, rowPairK, hc, if_false]
        exact ih' m

theorem foldl_eraseK {α : Type} (ks : List String) (m : List (String × α)) :
    ks.foldl (fun m k => eraseK k m) m = m.filter fun p => decide (p.1 ∉ ks) := by
  induction ks generalizing m with
  | nil => simp
  | cons k rest ih =>
    rw [List.foldl_cons, ih]
    simp only [eraseK, List.filter_filter]
    apply List.filter_congr
    intro p _
    by_cases h1 : p.1 = k <;> by_cases h2 : p.1 ∈ rest <;> simp [h1, h2]

theorem nodup_key_inj {α : Type} {l : List (String × α)} (h : (l.map Prod.fst).Nodup)
    {p q : String × α} (hp : p ∈ l) (hq : q ∈ l) (hfst : p.1 = q.1) : p = q := by
  induction l with
  | nil => cases hp
  | cons a rest ih =>
    simp only [List.map_cons, List.nodup_cons] at h
    rcases List.mem_cons.mp hp with hpa | hp' <;> rcases List.mem_cons.mp hq with hqa | hq'
    · rw [hpa, hqa]
    · exact absurd (hfst ▸ (List.mem_map_of_mem Prod.fst hq')) (hpa ▸ h.1)
    · exact absurd (hfst ▸ (List.mem_map_of_mem Prod.fst hp')) (hqa ▸ h.1)
    · exact ih h.2 hp' hq'

/-! ### Decimal printing parses back to the same value -/

theorem repChars_lt (n : Nat) (h : n < 10) : repChars n = [Nat.digitChar n] := by
  rw [repChars]
  simp [h]

theorem repChars_ge (n : Nat) (h : ¬n < 10) :
    repChars n = repChars (n / 10) ++ [Nat.digitChar (n % 10)] := by
  rw [repChars]
  simp [h]

theorem decAux_eq (fuel : Nat) : ∀ n acc, n ≤ fuel →
    decAux (fuel + 1) n acc = repChars n ++ acc := by
  induction fuel with
  | zero =>
    intro n acc hn
    have : n = 0 := Nat.le_zero.mp hn
    subst this
    simp [decAux, repChars_lt 0 (by omega)]
  | succ fuel ih =>
    intro n acc hn
    have hstep : decAux (fuel + 1 + 1) n acc =
        if n < 10 then Nat.digitChar n :: acc
        else decAux (fuel + 1) (n / 10) (Nat.digitChar (n % 10) :: acc) := rfl
    by_cases h10 : n < 10
    · rw [hstep, if_pos h10, repChars_lt n h10, List.singleton_append]
    · have hdiv : n / 10 ≤ fuel := by
        have := Nat.div_lt_self (show 0 < n by omega) (show 1 < 10 by omega)
        omega
      rw [hstep, if_neg h10, ih (n / 10) (Nat.digitChar (n % 10) :: acc) hdiv,
        repChars_ge n h10, List.append_assoc, List.singleton_append]

theorem charVal_digitChar (d : Nat) (h : d < 10) : charVal (Nat.digitChar d) = d := by
  interval_cases d <;> rfl

theorem isDigit_digitChar (d : Nat) (h : d < 10) : (Nat.digitChar d).isDigit = true := by
  interval_cases d <;> rfl

theorem valChars_repChars (n : Nat) : valChars (repChars n) = n := by
  induction n using Nat.strong_induction_on with
  | _ n ih =>
    by_cases h10 : n < 10
    · rw [repChars_lt n h10]
      simp [valChars, charVal_digitChar n h10]
    · rw [repChars_ge n h10]
      have hlt : n / 10 < n := Nat.div_lt_self (by omega) (by omega)
      have hmod : n % 10 < 10 := Nat.mod_lt n (by omega)
      simp only [valChars, List.foldl_append, List.foldl_cons, List.foldl_nil]
      rw [show (repChars (n / 10)).foldl (fun a c => a * 10 + charVal c) 0
            = valChars (repChars (n / 10)) from rfl,
        ih (n / 10) hlt, charVal_digitChar _ hmod]
      omega

theorem isDigit_repChars (n : Nat) : ∀ c ∈ repChars n, c.isDigit = true := by
  induction n using Nat.strong_induction_on with
  | _ n ih =>
    by_cases h10 : n < 10
    · rw [repChars_lt n h10]
      intro c hc
      rw [List.mem_singleton.mp hc]
      exact isDigit_digitChar n h10
    · rw [repChars_ge n h10]
      intro c hc
      rcases List.mem_append.mp hc with hc | hc
      · exact ih (n / 10) (Nat.div_lt_self (by omega) (by omega)) c hc
      · rw [List.mem_singleton.mp hc]
        exact isDigit_digitChar _ (Nat.mod_lt n (by omega))

theorem repChars_ne_nil (n : Nat) : repChars n ≠ [] := by
  by_cases h10 : n < 10
  · rw [repChars_lt n h10]
    simp
  · rw [repChars_ge n h10]
    simp

theorem natDecimal_data (n : Nat) : (natDecimal n).data = repChars n := by
  show decAux (n + 1) n [] = repChars n
  rw [decAux_eq n n [] (Nat.le_refl n), List.append_nil]

theorem parseUint64_natDecimal (n : Nat) (h : n < 2 ^ 64) :
    parseUint64 (natDecimal n) = n := by
  have hdata : (natDecimal n).data = repChars n := natDecimal_data n
  have hdig : isDigitStr (natDecimal n) = true := by
    have hne : (repChars n).isEmpty = false := by
      cases hrc : repChars n with
      | nil => exact absurd hrc (repChars_ne_nil n)
      | cons c cs => rfl
    simp only [isDigitStr, hdata, hne, Bool.not_false, Bool.true_and]
    exact List.all_eq_true.mpr fun c hc => isDigit_repChars n c hc
  simp only [parseUint64, hdig, if_true, hdata, valChars_repChars, h, if_pos]

theorem unixSec_natDecimal (n : Nat) (h : n < 2 ^ 63) :
    unixSec (natDecimal n) = (n : Int) := by
  have h64 : n < 2 ^ 64 := by omega
  rw [unixSec, parseUint64_natDecimal n h64, toInt64, if_pos h]

/-! ### The claims -/

/-- Claim C3: for every key map, owner, token, and time, `CheckKey` returns
`(true, nil)` exactly when the token is bound in the map to a record whose
owner equals the given owner and whose expiry is still in the future
(`now < expires_at`); in every other case — token absent, owner mismatch,
or expired — it returns `false` with the single error `ErrBadKey`, and it
never modifies the key map or the dirty flag. -/
theorem CheckKey_spec (now : Nat) (ks : KeyState) (uname keystr : String) :
    (CheckKey now ks uname keystr).2 = ks ∧
    ((CheckKey now ks uname keystr).1 = (true, none) ↔
      ∃ k, alookup ks.keys keystr = some k ∧ uname = k.uname ∧ now < k.until_) ∧
    ((CheckKey now ks uname keystr).1 = (true, none) ∨
      (CheckKey now ks uname keystr).1 = (false, some AuthErr.badKey)) := by
  refine ⟨rfl, ?_, ?_⟩ <;>
    rcases hlk : alookup ks.keys keystr with _ | k
  · simp [CheckKey, hlk]
  · by_cases h1 : uname = k.uname
    · by_cases h2 : now < k.until_ <;> simp [CheckKey, hlk, h1, h2]
    · simp [CheckKey, hlk, h1]
  · simp [CheckKey, hlk]
  · by_cases h1 : uname = k.uname
    · by_cases h2 : now < k.until_ <;> simp [CheckKey, hlk, h1, h2]
    · simp [CheckKey, hlk, h1]

/-- Claim C5: `AddUser` on a name that is already a key returns
`ErrUserExists` and leaves the map (in particular the stored digest) and
the dirty flag unchanged; on a fresh name it binds the name to
`hash(password)`, leaves every other binding as it was, and sets the
dirty flag. -/
theorem AddUser_spec (hash : String → String) (s : UserState) (name pwd : String) :
    ((∃ d, alookup s.users name = some d) →
      AddUser hash s name pwd = (some AuthErr.userExists, s)) ∧
    (alookup s.users name = none →
      (AddUser hash s name pwd).1 = none ∧
      alookup (AddUser hash s name pwd).2.users name = some (hash pwd) ∧
      (∀ t, t ≠ name → alookup (AddUser hash s name pwd).2.users t = alookup s.users t) ∧
      (AddUser hash s name pwd).2.udirty = true) := by
  constructor
  · rintro ⟨d, hd⟩
    simp [AddUser, hd]
  · intro hnone
    refine ⟨by simp [AddUser, hnone], ?_, ?_, by simp [AddUser, hnone]⟩
    · simp [AddUser, hnone, alookup_insertK]
    · intro t ht
      simp only [AddUser, hnone]
      rw [alookup_insertK, if_neg (fun hc => ht hc.symm)]

/-- Witness for C5 at concrete inputs: a duplicate insert is rejected
unchanged, a fresh insert stores the digest. -/
theorem AddUser_spec_witness :
    AddUser (fun _ => "D") ⟨[("a", "h")], false⟩ "a" "p" =
      (some AuthErr.userExists, ⟨[("a", "h")], false⟩) ∧
    alookup (AddUser (fun _ => "D") ⟨[], false⟩ "a" "p").2.users "a" = some "D" :=
  ⟨(AddUser_spec (fun _ => "D") ⟨[("a", "h")], false⟩ "a" "p").1 ⟨"h", by decide⟩,
   ((AddUser_spec (fun _ => "D") ⟨[], false⟩ "a" "p").2 (by decide)).2.1⟩

/-- Claim C8: `CheckPassword` fails with `ErrNotAUser` exactly when the
name is absent from the user map; otherwise it returns `(true, nil)` when
the bcrypt comparison succeeds and `(false, ErrBadPassword)` both on a
mismatch and on an engine error (the two causes are indistinguishable),
and it never modifies the user map or the dirty flag. -/
theorem CheckPassword_spec (cmp : String → String → CmpRes) (s : UserState)
    (uname pwd : String) :
    (CheckPassword cmp s uname pwd).2 = s ∧
    (alookup s.users uname = none →
      (CheckPassword cmp s uname pwd).1 = (false, some AuthErr.notAUser)) ∧
    (∀ hsh, alookup s.users uname = some hsh →
      (CheckPassword cmp s uname pwd).1 =
        if cmp hsh pwd = CmpRes.ok then (true, none)
        else (false, some AuthErr.badPassword)) := by
  refine ⟨rfl, ?_, ?_⟩
  · intro hnone
    simp [CheckPassword, hnone]
  · intro hsh hsome
    cases hc : cmp hsh pwd <;> simp [CheckPassword, hsome, hc]

/-- Witness for C8 at concrete inputs: unknown user, engine error, and a
successful comparison. -/
theorem CheckPassword_spec_witness :
    (CheckPassword (fun _ p => if p = "good" then CmpRes.ok else CmpRes.engineErr)
        ⟨[("alice", "H")], false⟩ "bob" "x").1 = (false, some AuthErr.notAUser) ∧
    (CheckPassword (fun _ p => if p = "good" then CmpRes.ok else CmpRes.engineErr)
        ⟨[("alice", "H")], false⟩ "alice" "bad").1 = (false, some AuthErr.badPassword) ∧
    (CheckPassword (fun _ p => if p = "good" then CmpRes.ok else CmpRes.engineErr)
        ⟨[("alice", "H")], false⟩ "alice" "good").1 = (true, none) := by
  refine ⟨?_, ?_, ?_⟩
  · exact (CheckPassword_spec _ ⟨[("alice", "H")], false⟩ "bob" "x").2.1 (by decide)
  · rw [(CheckPassword_spec _ ⟨[("alice", "H")], false⟩ "alice" "bad").2.2 "H" (by decide)]
    decide
  · rw [(CheckPassword_spec _ ⟨[("alice", "H")], false⟩ "alice" "good").2.2 "H" (by decide)]
    decide

/-- Claim C6: `CheckAndRefreshKey` behaves as `CheckKey` followed, only on
success, by setting the record expiry to `now + key_lifetime` (owner
unchanged, other records unchanged) and setting the dirty flag; on a
failed check it returns the same `ErrBadKey` error and leaves the map and
the dirty flag unchanged. -/
theorem CheckAndRefreshKey_spec (now lifetime : Nat) (ks : KeyState)
    (uname keystr : String) :
    ((CheckKey now ks uname keystr).1.1 = false →
      CheckAndRefreshKey now lifetime ks uname keystr =
        ((false, (CheckKey now ks uname keystr).1.2), ks)) ∧
    ((CheckKey now ks uname keystr).1.1 = true →
      ∃ k, alookup ks.keys keystr = some k ∧
        (CheckAndRefreshKey now lifetime ks uname keystr).1 = (true, none) ∧
        alookup (CheckAndRefreshKey now lifetime ks uname keystr).2.keys keystr =
          some ⟨k.uname, now + lifetime⟩ ∧
        (∀ t, t ≠ keystr →
          alookup (CheckAndRefreshKey now lifetime ks uname keystr).2.keys t =
            alookup ks.keys t) ∧
        (CheckAndRefreshKey now lifetime ks uname keystr).2.kdirty = true) := by
  constructor
  · intro hfail
    simp [CheckAndRefreshKey, hfail]
  · intro hok
    rcases hlk : alookup ks.keys keystr with _ | k
    · exact absurd hok (by simp [CheckKey, hlk])
    · refine ⟨k, rfl, ?_, ?_, ?_, ?_⟩
      · simp [CheckAndRefreshKey, hok, hlk]
      · simp only [CheckAndRefreshKey, hok, Bool.true_eq_false, if_false, hlk,
          Option.getD_some]
        rw [alookup_insertK, if_pos rfl]
      · intro t ht
        simp only [CheckAndRefreshKey, hok, Bool.true_eq_false, if_false, hlk,
          Option.getD_some]
        rw [alookup_insertK, if_neg (fun hc => ht hc.symm)]
      · simp [CheckAndRefreshKey, hok, hlk]

/-- Witness for C6 at concrete inputs: a valid key is refreshed to
`now + lifetime` and the flag set; a wrong owner leaves the state alone. -/
theorem CheckAndRefreshKey_spec_witness :
    alookup (CheckAndRefreshKey 5 10 ⟨[("t", ⟨"a", 6⟩)], false⟩ "a" "t").2.keys "t" =
      some ⟨"a", 15⟩ ∧
    CheckAndRefreshKey 5 10 ⟨[("t", ⟨"a", 6⟩)], false⟩ "b" "t" =
      ((false, some AuthErr.badKey), ⟨[("t", ⟨"a", 6⟩)], false⟩) := by
  constructor
  · obtain ⟨k, hk, -, hset, -, -⟩ :=
      (CheckAndRefreshKey_spec 5 10 ⟨[("t", ⟨"a", 6⟩)], false⟩ "a" "t").2 (by decide)
    have : k = ⟨"a", 6⟩ := by
      have : some k = some (⟨"a", 6⟩ : key) := by rw [← hk]; decide
      exact Option.some.inj this.symm |>.symm
    rw [hset, this]
  · have := (CheckAndRefreshKey_spec 5 10 ⟨[("t", ⟨"a", 6⟩)], false⟩ "b" "t").1 (by decide)
    rw [this]
    decide

/-- Claim C7: with a positive lifetime, a successful
`CheckPasswordAndIssueKey` returns a token that is in the key map with the
given owner and expiry `now + key_lifetime`, so `CheckKey` succeeds at
issue time and fails at every instant from the expiry on; a failed
password check returns the empty string with the credential error and
leaves the key map and its dirty flag unchanged. -/
theorem CheckPasswordAndIssueKey_spec (cmp : String → String → CmpRes)
    (kstr : String) (now lifetime : Nat) (us : UserState) (ks : KeyState)
    (uname pwd : String) (hpos : 0 < lifetime) :
    ((CheckPassword cmp us uname pwd).1.1 = true →
      (CheckPasswordAndIssueKey cmp kstr now lifetime us ks uname pwd).1 = (kstr, none) ∧
      alookup (CheckPasswordAndIssueKey cmp kstr now lifetime us ks uname pwd).2.keys kstr =
        some ⟨uname, now + lifetime⟩ ∧
      (CheckKey now (CheckPasswordAndIssueKey cmp kstr now lifetime us ks uname pwd).2
        uname kstr).1 = (true, none) ∧
      (∀ t, now + lifetime ≤ t →
        (CheckKey t (CheckPasswordAndIssueKey cmp kstr now lifetime us ks uname pwd).2
          uname kstr).1 = (false, some AuthErr.badKey)) ∧
      (CheckPasswordAndIssueKey cmp kstr now lifetime us ks uname pwd).2.kdirty = true) ∧
    ((CheckPassword cmp us uname pwd).1.1 = false →
      CheckPasswordAndIssueKey cmp kstr now lifetime us ks uname pwd =
        (("", (CheckPassword cmp us uname pwd).1.2), ks)) := by
  constructor
  · intro hok
    have hstep : CheckPasswordAndIssueKey cmp kstr now lifetime us ks uname pwd =
        ((kstr, none), ⟨insertK kstr ⟨uname, now + lifetime⟩ ks.keys, true⟩) := by
      simp [CheckPasswordAndIssueKey, hok]
    have hlook : alookup (insertK kstr ⟨uname, now + lifetime⟩ ks.keys) kstr =
        some ⟨uname, now + lifetime⟩ := by
      rw [alookup_insertK, if_pos rfl]
    refine ⟨by rw [hstep], by rw [hstep]; exact hlook, ?_, ?_, by rw [hstep]⟩
    · rw [hstep]
      simp [CheckKey, hlook, Nat.lt_add_of_pos_right hpos]
    · intro t ht
      rw [hstep]
      simp [CheckKey, hlook, Nat.not_lt.mpr ht]
  · intro hfail
    simp [CheckPasswordAndIssueKey, hfail]

/-- Witness for C7 at concrete inputs: an issued key verifies at issue
time and fails once the lifetime has elapsed; a bad password issues
nothing. -/
theorem CheckPasswordAndIssueKey_spec_witness :
    (CheckKey 5 (CheckPasswordAndIssueKey (fun _ p => if p = "pw" then CmpRes.ok
        else CmpRes.mismatch) "T" 5 10 ⟨[("u", "H")], false⟩ ⟨[], false⟩ "u" "pw").2
      "u" "T").1 = (true, none) ∧
    (CheckKey 15 (CheckPasswordAndIssueKey (fun _ p => if p = "pw" then CmpRes.ok
        else CmpRes.mismatch) "T" 5 10 ⟨[("u", "H")], false⟩ ⟨[], false⟩ "u" "pw").2
      "u" "T").1 = (false, some AuthErr.badKey) ∧
    CheckPasswordAndIssueKey (fun _ p => if p = "pw" then CmpRes.ok
        else CmpRes.mismatch) "T" 5 10 ⟨[("u", "H")], false⟩ ⟨[], false⟩ "u" "bad" =
      (("", some AuthErr.badPassword), ⟨[], false⟩) := by
  have h := CheckPasswordAndIssueKey_spec (fun _ p => if p = "pw" then CmpRes.ok
    else CmpRes.mismatch) "T" 5 10 ⟨[("u", "H")], false⟩ ⟨[], false⟩ "u" "pw"
    (by decide)
  refine ⟨(h.1 (by decide)).2.2.1, (h.1 (by decide)).2.2.2.1 15 (by decide), ?_⟩
  have h2 := (CheckPasswordAndIssueKey_spec (fun _ p => if p = "pw" then CmpRes.ok
    else CmpRes.mismatch) "T" 5 10 ⟨[("u", "H")], false⟩ ⟨[], false⟩ "u" "bad"
    (by decide)).2 (by decide)
  rw [h2]
  decide

/-- Counterexample to claim C2 as stated: at `now = 5`, the record with
`expires_at = 5` satisfies `expires_at <= now`, so the claim says Cull
removes it; the code tests `now.After(until)`, keeps it, and leaves the
dirty flag clean. -/
theorem CullOldKeys_boundary_counterexample :
    alookup (CullOldKeys 5 ⟨[("t", ⟨"u", 5⟩)], false⟩).keys "t" = some ⟨"u", 5⟩ ∧
    (CullOldKeys 5 ⟨[("t", ⟨"u", 5⟩)], false⟩).kdirty = false := by decide

/-- Claim C2 as amended: `CullOldKeys` removes exactly the records with
`expires_at < now` (strictly, since the code tests `now.After(until)`) and
leaves every other record's token, owner, and expiry unchanged; the dirty
flag becomes true exactly when at least one record was removed and is
otherwise unchanged. -/
theorem CullOldKeys_spec (now : Nat) (ks : KeyState)
    (hnd : (ks.keys.map Prod.fst).Nodup) :
    (CullOldKeys now ks).keys = ks.keys.filter (fun p => decide (¬p.2.until_ < now)) ∧
    ((CullOldKeys now ks).kdirty = true ↔
      (∃ p ∈ ks.keys, p.2.until_ < now) ∨ ks.kdirty = true) := by
  constructor
  · show ((ks.keys.filter fun p => decide (p.2.until_ < now)).map Prod.fst).foldl
        (fun m kstr => eraseK kstr m) ks.keys = _
    rw [foldl_eraseK]
    apply List.filter_congr
    intro p hp
    by_cases hexp : p.2.until_ < now
    · have hmem : p.1 ∈ (ks.keys.filter fun q => decide (q.2.until_ < now)).map Prod.fst :=
        List.mem_map_of_mem Prod.fst (List.mem_filter.mpr ⟨hp, by simpa using hexp⟩)
      simp [hexp, hmem]
    · have hnmem : p.1 ∉ (ks.keys.filter fun q => decide (q.2.until_ < now)).map Prod.fst := by
        intro hc
        rcases List.mem_map.mp hc with ⟨q, hqf, hq1⟩
        rcases List.mem_filter.mp hqf with ⟨hqmem, hqexp⟩
        have : q = p := nodup_key_inj hnd hqmem hp hq1
        rw [this] at hqexp
        exact hexp (by simpa using hqexp)
      simp [hexp, hnmem]
  · show (if ((ks.keys.filter fun p => decide (p.2.until_ < now)).map Prod.fst).length > 0
        then true else ks.kdirty) = true ↔ _
    rcases hfil : ks.keys.filter (fun p => decide (p.2.until_ < now)) with _ | ⟨q, tl⟩
    · have hno : ¬∃ p ∈ ks.keys, p.2.until_ < now := by
        rintro ⟨p, hp, hexp⟩
        have : p ∈ ks.keys.filter fun p => decide (p.2.until_ < now) :=
          List.mem_filter.mpr ⟨hp, by simpa using hexp⟩
        rw [hfil] at this
        cases this
      simp [hfil, hno]
    · have hyes : ∃ p ∈ ks.keys, p.2.until_ < now := by
        have hq : q ∈ ks.keys.filter fun p => decide (p.2.until_ < now) := by
          rw [hfil]
          exact List.mem_cons_self q tl
        rcases List.mem_filter.mp hq with ⟨hqm, hqe⟩
        exact ⟨q, hqm, by simpa using hqe⟩
      simp [hfil, hyes]

/-- Witness for amended C2 at a concrete map: the strictly expired record
goes, the boundary and live records stay, the flag is set. -/
theorem CullOldKeys_spec_witness :
    (CullOldKeys 5 ⟨[("t1", ⟨"a", 4⟩), ("t2", ⟨"b", 5⟩), ("t3", ⟨"c", 9⟩)], false⟩).keys =
      [("t2", ⟨"b", 5⟩), ("t3", ⟨"c", 9⟩)] ∧
    (CullOldKeys 5 ⟨[("t1", ⟨"a", 4⟩), ("t2", ⟨"b", 5⟩), ("t3", ⟨"c", 9⟩)], false⟩).kdirty =
      true := by
  have h := CullOldKeys_spec 5 ⟨[("t1", ⟨"a", 4⟩), ("t2", ⟨"b", 5⟩), ("t3", ⟨"c", 9⟩)], false⟩
    (by decide)
  constructor
  · rw [h.1]
    decide
  · exact h.2.mpr (Or.inl ⟨("t1", ⟨"a", 4⟩), by decide, by decide⟩)

/-- Counterexample to claim C9 as stated: for the out-of-range field
`"18446744073709551616"` (2^64) Go's ParseUint returns the maximum uint64,
not 0, so after the int64 conversion the expiry is epoch second -1, not 0.
The row is still silently dropped and the load still succeeds. -/
theorem LoadKeys_expiry_counterexample :
    ¬unixSec "18446744073709551616" = 0 ∧
    unixSec "18446744073709551616" = -1 ∧
    LoadKeys [["u", "18446744073709551616", "t"]] 5 ⟨[("old", ⟨"o", 9⟩)], true⟩ =
      (none, ⟨[], false⟩) := by decide

/-- Claim C9 as amended: a key-file row with at least 3 fields whose expiry
field is not a parseable uint64 never fails `LoadKeys`: the parse error is
ignored and the expiry is taken as epoch second 0 for a syntactically
invalid field, and as the maximum uint64 — which is -1 after the int64
conversion — for an out-of-range numeric field; in both cases, at every
load instant at or after the epoch, the row is silently dropped exactly
like an expired key, and a load whose rows all have ≥3 fields succeeds. -/
theorem LoadKeys_badExpiry_spec (now : Nat) (recs : List (List String))
    (ks : KeyState) (h3 : ∀ r ∈ recs, 3 ≤ r.length) :
    (LoadKeys recs now ks).1 = none ∧
    (∀ f0 f1 f2 tl rest m,
      ¬(isDigitStr f1 = true ∧ valChars f1.data < 2 ^ 64) →
      (unixSec f1 = 0 ∨ unixSec f1 = -1) ∧
      lkLoop now ((f0 :: f1 :: f2 :: tl) :: rest) m = lkLoop now rest m) := by
  constructor
  · rw [LoadKeys, lkLoop_wf now recs h3 []]
  · intro f0 f1 f2 tl rest m hbad
    have hval : unixSec f1 = 0 ∨ unixSec f1 = -1 := by
      by_cases hd : isDigitStr f1 = true
      · have hge : ¬valChars f1.data < 2 ^ 64 := fun hc => hbad ⟨hd, hc⟩
        right
        have hp : parseUint64 f1 = 2 ^ 64 - 1 := by
          rw [parseUint64, if_pos hd, if_neg hge]
        rw [unixSec, hp]
        decide
      · left
        have hp : parseUint64 f1 = 0 := by simp [parseUint64, hd]
        rw [unixSec, hp]
        decide
    have hcond : ¬((now : Int) < unixSec f1) := by
      rcases hval with h | h <;> rw [h] <;> omega
    refine ⟨hval, ?_⟩
    simp only [lkLoop, if_neg hcond]

/-- Witness for C9 at a concrete load: a mix of a good row, a
syntactically bad expiry, and an out-of-range expiry loads successfully
and keeps only the good row. -/
theorem LoadKeys_badExpiry_spec_witness :
    (LoadKeys [["a", "xyz", "t1"], ["b", "18446744073709551616", "t2"],
        ["c", "100", "t3"]] 5 ⟨[], true⟩).1 = none ∧
    unixSec "xyz" = 0 ∧
    lkLoop 5 [["a", "xyz", "t1"]] [] = lkLoop 5 [] [] := by
  have h := LoadKeys_badExpiry_spec 5
    [["a", "xyz", "t1"], ["b", "18446744073709551616", "t2"], ["c", "100", "t3"]]
    ⟨[], true⟩ (by decide)
  have h2 := h.2 "a" "xyz" "t1" [] [] [] (by decide)
  exact ⟨h.1, h2.1.resolve_right (by decide), h2.2⟩

/-- Claim C10: a user file in which the same name appears in several
well-formed rows loads without error; the resulting map binds each name to
the digest of its last row in file order, earlier rows being silently
overwritten. -/
theorem LoadUsers_lastWins (recs : List (List String)) (s : UserState)
    (h2 : ∀ r ∈ recs, 2 ≤ r.length) :
    (LoadUsers recs s).1 = none ∧
    (LoadUsers recs s).2.udirty = false ∧
    ∀ name, alookup (LoadUsers recs s).2.users name = lastDigest recs name := by
  rw [LoadUsers, luLoop_wf recs h2 []]
  refine ⟨rfl, rfl, ?_⟩
  intro name
  show alookup (insertAll (recs.filterMap rowPairU) []) name = _
  rw [alookup_insertAll]
  have hfm : ∀ rs : List (List String),
      lastDigest rs name =
        match lastLookup (rs.filterMap rowPairU) name with
        | some v => some v
        | none => none := by
    intro rs
    induction rs with
    | nil => rfl
    | cons r rest ih =>
      rcases r with _ | ⟨f0, _ | ⟨f1, tl⟩⟩
      · simp only [lastDigest, List.filterMap_cons,
          show rowPairU [] = none from rfl, ih]
        rcases lastLookup (rest.filterMap rowPairU) name with _ | v <;> rfl
      · simp only [lastDigest, List.filterMap_cons,
          show rowPairU [f0] = none from rfl, ih]
        rcases lastLookup (rest.filterMap rowPairU) name with _ | v <;> rfl
      · simp only [lastDigest, List.filterMap_cons,
          show rowPairU (f0 :: f1 :: tl) = some (f0, f1) from rfl, lastLookup_cons, ih]
        rcases lastLookup (rest.filterMap rowPairU) name with _ | v
        · by_cases hf : f0 = name <;> simp [hf]
        · rfl
  rw [hfm recs]
  rcases lastLookup (recs.filterMap rowPairU) name with _ | v <;> rfl

/-- Witness for C10: duplicate rows for `"a"`; the digest from the last
row wins and the load succeeds. -/
theorem LoadUsers_lastWins_witness :
    (LoadUsers [["a", "h1"], ["b", "h2"], ["a", "h3"]] ⟨[], true⟩).1 = none ∧
    alookup (LoadUsers [["a", "h1"], ["b", "h2"], ["a", "h3"]] ⟨[], true⟩).2.users "a" =
      some "h3" := by
  have h := LoadUsers_lastWins [["a", "h1"], ["b", "h2"], ["a", "h3"]] ⟨[], true⟩
    (by decide)
  refine ⟨h.1, ?_⟩
  rw [h.2.2 "a"]
  decide

/-- Counterexample to claim C1 as stated: the code replaces the map with a
fresh one BEFORE parsing, so a failed `LoadUsers` does not leave the
previous in-memory map as it was: the binding `alice ↦ h` present before
the call is gone afterwards (only the dirty flag survives). -/
theorem Load_partial_counterexample :
    (LoadUsers [["x"]] ⟨[("alice", "h")], false⟩).1 = some AuthErr.formatError ∧
    alookup ([("alice", "h")] : List (String × String)) "alice" = some "h" ∧
    alookup (LoadUsers [["x"]] ⟨[("alice", "h")], false⟩).2.users "alice" = none := by
  decide

/-- Claim C1 as amended: on a persisted input with a malformed record (a
user row with fewer than 2 fields, a key row with fewer than 3),
`LoadUsers`/`LoadKeys` fails with the format error and leaves the dirty
flag exactly as it was, but NOT the map: the previous map has already been
discarded and replaced by the bindings parsed from the rows preceding the
first malformed one. -/
theorem Load_formatError_spec :
    (∀ (s : UserState) (good : List (List String)) (bad : List String)
        (rest : List (List String)),
      (∀ r ∈ good, 2 ≤ r.length) → bad.length < 2 →
      LoadUsers (good ++ bad :: rest) s =
        (some AuthErr.formatError,
         ⟨insertAll (good.filterMap rowPairU) [], s.udirty⟩)) ∧
    (∀ (ks : KeyState) (now : Nat) (good : List (List String)) (bad : List String)
        (rest : List (List String)),
      (∀ r ∈ good, 3 ≤ r.length) → bad.length < 3 →
      LoadKeys (good ++ bad :: rest) now ks =
        (some AuthErr.formatError,
         ⟨insertAll (good.filterMap (rowPairK now)) [], ks.kdirty⟩)) := by
  constructor
  · intro s good bad rest hg hb
    rw [LoadUsers, luLoop_stop good bad rest [] hg hb]
  · intro ks now good bad rest hg hb
    rw [LoadKeys, lkLoop_stop now good bad rest [] hg hb]

/-- Witness for amended C1: a dirty flag survives a failed load while the
map is replaced by the partial parse. -/
theorem Load_formatError_spec_witness :
    LoadUsers [["a", "h1"], ["x"], ["b", "h2"]] ⟨[("alice", "h")], true⟩ =
      (some AuthErr.formatError, ⟨[("a", "h1")], true⟩) ∧
    LoadKeys [["u"], ["v", "9", "t"]] 5 ⟨[("t0", ⟨"z", 7⟩)], false⟩ =
      (some AuthErr.formatError, ⟨[], false⟩) := by
  constructor
  · have h := Load_formatError_spec.1 ⟨[("alice", "h")], true⟩ [["a", "h1"]] ["x"]
      [["b", "h2"]] (by decide) (by decide)
    exact h.trans (by decide)
  · have h := Load_formatError_spec.2 ⟨[("t0", ⟨"z", 7⟩)], false⟩ 5 [] ["u"]
      [["v", "9", "t"]] (by decide) (by decide)
    exact h.trans (by decide)

theorem alookup_insertAll_nil {α : Type} (l : List (String × α))
    (h : (l.map Prod.fst).Nodup) (s : String) :
    alookup (insertAll l []) s = alookup l s := by
  rw [alookup_insertAll, lastLookup_eq_alookup l h]
  rcases alookup l s with _ | v <;> rfl

theorem filterMap_userRows (l : List (String × String)) :
    (l.map fun p => [p.1, p.2]).filterMap rowPairU = l := by
  induction l with
  | nil => rfl
  | cons p rest ih =>
    simp only [List.map_cons, List.filterMap_cons,
      show rowPairU [p.1, p.2] = some (p.1, p.2) from rfl, ih]

theorem filterMap_keyRows (now : Nat) (l : List (String × key))
    (h63 : ∀ p ∈ l, p.2.until_ < 2 ^ 63) (hfut : ∀ p ∈ l, now < p.2.until_) :
    (l.map fun p => [p.2.uname, natDecimal p.2.until_, p.1]).filterMap (rowPairK now)
      = l := by
  induction l with
  | nil => rfl
  | cons p rest ih =>
    have hu := unixSec_natDecimal p.2.until_ (h63 p (List.mem_cons_self p rest))
    have hcond : (now : Int) < unixSec (natDecimal p.2.until_) := by
      rw [hu]
      exact_mod_cast hfut p (List.mem_cons_self p rest)
    have ih' := ih (fun q hq => h63 q (List.mem_cons_of_mem p hq))
      (fun q hq => hfut q (List.mem_cons_of_mem p hq))
    simp only [List.map_cons, List.filterMap_cons]
    rw [show rowPairK now [p.2.uname, natDecimal p.2.until_, p.1] =
        if (now : Int) < unixSec (natDecimal p.2.until_) then
          some (p.1, ⟨p.2.uname, (unixSec (natDecimal p.2.until_)).toNat⟩)
        else none from rfl,
      if_pos hcond, hu, ih']
    rfl

/-- Claim C4: a successful Flush followed by a successful Load of the same
store (at the same instant) yields a user map with exactly the same names
bound to the same digests, and a key map holding exactly the records that
were unexpired at flush time with token, owner, and expiry intact; both
stores come back clean.  Expiries are assumed to fit in an `int64` so the
serialized epoch seconds parse back exactly. -/
theorem FlushLoad_roundTrip (s : UserState) (ks : KeyState) (now : Nat)
    (hu : (s.users.map Prod.fst).Nodup) (hk : (ks.keys.map Prod.fst).Nodup)
    (h63 : ∀ p ∈ ks.keys, p.2.until_ < 2 ^ 63) :
    (LoadUsers (FlushUsers s).1 (FlushUsers s).2).1 = none ∧
    (LoadUsers (FlushUsers s).1 (FlushUsers s).2).2.udirty = false ∧
    (∀ n, alookup (LoadUsers (FlushUsers s).1 (FlushUsers s).2).2.users n =
      alookup s.users n) ∧
    (LoadKeys (FlushKeys now ks).1 now (FlushKeys now ks).2).1 = none ∧
    (LoadKeys (FlushKeys now ks).1 now (FlushKeys now ks).2).2.kdirty = false ∧
    (∀ t, alookup (LoadKeys (FlushKeys now ks).1 now (FlushKeys now ks).2).2.keys t =
      match alookup ks.keys t with
      | some k => if now < k.until_ then some k else none
      | none => none) := by
  have hurows : ∀ r ∈ (FlushUsers s).1, 2 ≤ r.length := by
    intro r hr
    rcases List.mem_map.mp hr with ⟨p, -, rfl⟩
    simp
  have huload : LoadUsers (FlushUsers s).1 (FlushUsers s).2 =
      (none, ⟨insertAll s.users [], false⟩) := by
    rw [LoadUsers, luLoop_wf (FlushUsers s).1 hurows [],
      show (FlushUsers s).1 = s.users.map (fun p => [p.1, p.2]) from rfl,
      filterMap_userRows]
  have hkrows : ∀ r ∈ (FlushKeys now ks).1, 3 ≤ r.length := by
    intro r hr
    rcases List.mem_map.mp hr with ⟨p, -, rfl⟩
    simp
  have hfm : ((FlushKeys now ks).1).filterMap (rowPairK now) =
      ks.keys.filter fun p => now < p.2.until_ := by
    rw [show (FlushKeys now ks).1 = ((ks.keys.filter fun p => now < p.2.until_).map
        fun p => [p.2.uname, natDecimal p.2.until_, p.1]) from rfl]
    apply filterMap_keyRows
    · intro p hp
      exact h63 p (List.mem_filter.mp hp).1
    · intro p hp
      simpa using (List.mem_filter.mp hp).2
  have hkload : LoadKeys (FlushKeys now ks).1 now (FlushKeys now ks).2 =
      (none, ⟨insertAll (ks.keys.filter fun p => now < p.2.until_) [], false⟩) := by
    rw [LoadKeys, lkLoop_wf now (FlushKeys now ks).1 hkrows [], hfm]
  have hknd : ((ks.keys.filter fun p => now < p.2.until_).map Prod.fst).Nodup :=
    ((List.filter_sublist ks.keys).map Prod.fst).nodup hk
  refine ⟨by rw [huload], by rw [huload], ?_, by rw [hkload], by rw [hkload], ?_⟩
  · intro n
    rw [huload]
    exact alookup_insertAll_nil s.users hu n
  · intro t
    rw [hkload]
    show alookup (insertAll (ks.keys.filter fun p => now < p.2.until_) []) t = _
    rw [alookup_insertAll_nil _ hknd t,
      alookup_filter (fun p => now < p.2.until_) ks.keys hk t]
    rcases alookup ks.keys t with _ | k
    · rfl
    · by_cases hc : now < k.until_ <;> simp [hc]

/-- Witness for C4 at a concrete store: the user binding survives the
round trip; the unexpired key survives with its expiry, the expired one is
dropped. -/
theorem FlushLoad_roundTrip_witness :
    alookup (LoadUsers (FlushUsers ⟨[("alice", "h1")], true⟩).1
        (FlushUsers ⟨[("alice", "h1")], true⟩).2).2.users "alice" = some "h1" ∧
    (LoadUsers (FlushUsers ⟨[("alice", "h1")], true⟩).1
        (FlushUsers ⟨[("alice", "h1")], true⟩).2).2.udirty = false ∧
    alookup (LoadKeys (FlushKeys 5 ⟨[("t1", ⟨"alice", 100⟩), ("t2", ⟨"bob", 3⟩)], true⟩).1
        5 (FlushKeys 5 ⟨[("t1", ⟨"alice", 100⟩), ("t2", ⟨"bob", 3⟩)], true⟩).2).2.keys
      "t1" = some ⟨"alice", 100⟩ ∧
    alookup (LoadKeys (FlushKeys 5 ⟨[("t1", ⟨"alice", 100⟩), ("t2", ⟨"bob", 3⟩)], true⟩).1
        5 (FlushKeys 5 ⟨[("t1", ⟨"alice", 100⟩), ("t2", ⟨"bob", 3⟩)], true⟩).2).2.keys
      "t2" = none := by
  have h := FlushLoad_roundTrip ⟨[("alice", "h1")], true⟩
    ⟨[("t1", ⟨"alice", 100⟩), ("t2", ⟨"bob", 3⟩)], true⟩ 5
    (by decide) (by decide) (by decide)
  refine ⟨?_, h.2.1, ?_, ?_⟩
  · rw [h.2.2.1 "alice"]
    decide
  · rw [h.2.2.2.2.2 "t1"]
    decide
  · rw [h.2.2.2.2.2 "t2"]
    decide

end Authlite
